import Mathlib

/-!
Shallow embedding of `src/LAbka.cpp`: a lexer, recursive-descent parser and
AST evaluator for single-line arithmetic expressions.

Modelling conventions:
* The `std::string` input is a `List Char`; `input[pos]` at `pos = size()` is
  the defined null-character read of `std::string::operator[]`, modelled by
  `List.getD pos (Char.ofNat 0)`.
* `std::vector<Token>::operator[]` past the end (`Parser::currentToken`) is
  undefined behaviour in the source; the embedding surfaces such a read as the
  distinct error `ParseError.tokenOutOfBounds`.
* C++ exceptions become `Except` values; the error constructors follow the
  `runtime_error` messages of the source one for one.
* IEEE-754 `double` values are modelled as exact rationals `ℚ`; every numeric
  fact proved below involves only arithmetic that is exact in double
  precision.  IEEE-specific behaviour (infinities, NaN, rounding of large
  literals) is outside this model and is flagged where relevant.
* C++ `while` loops are embedded as fuel-indexed structural recursions;
  `none` marks fuel exhaustion, an embedding artifact that does not occur at
  the fuel bounds used by the top-level wrappers on the inputs studied here.
* `isspace` / `isdigit` / `isalnum` are modelled in the C locale over ASCII.
-/

/-- `enum class TokenType` of the source. -/
inductive TokenType
  | Number
  | Plus
  | Minus
  | Multiply
  | Divide
  | LeftParen
  | RightParen
  | Identifier
  | Assignment
  | Comma
  | Function
  | End
deriving DecidableEq

/-- `struct Token { TokenType type; std::string text; }`. -/
structure Token where
  type : TokenType
  text : List Char
deriving DecidableEq

deriving instance DecidableEq for Except

/-- C-locale `isspace` over ASCII: space and the control characters 9–13. -/
def isSpaceC (c : Char) : Bool :=
  c = ' ' || (9 ≤ c.toNat && c.toNat ≤ 13)

/-- C-locale `isdigit`. -/
def isDigitC (c : Char) : Bool :=
  48 ≤ c.toNat && c.toNat ≤ 57

/-- C-locale `isalnum`. -/
def isAlnumC (c : Char) : Bool :=
  isDigitC c || (65 ≤ c.toNat && c.toNat ≤ 90) || (97 ≤ c.toNat && c.toNat ≤ 122)

/-- `Lexer::currentChar`: `input[pos]`, which for `std::string` returns the
null character at `pos = size()` (the sentinel the main loop tests for). -/
def currentChar (input : List Char) (p : Nat) : Char :=
  input.getD p (Char.ofNat 0)

/-- `Lexer::skipWhitespace`: advance while `isspace(currentChar())`.  The loop
stops at the first non-space character or at the null sentinel, so its result
is the position just past the maximal whitespace run starting at `p`. -/
def skipWs (input : List Char) (p : Nat) : Nat :=
  p + ((input.drop p).takeWhile isSpaceC).length

/-- The reserved-word check of `Lexer::identifier`. -/
def isReservedWord (ds : List Char) : Bool :=
  ds = ['p', 'o', 'w'] || ds = ['a', 'b', 's'] || ds = ['m', 'a', 'x'] || ds = ['m', 'i', 'n']

/-- Errors thrown by the Lexer (`runtime_error("Invalid character")`). -/
inductive LexError
  | invalidCharacter
deriving DecidableEq

/-- `Lexer::number`: consume the maximal digit run starting at `q` and build
a `Number` token from its text. -/
def numberTok (input : List Char) (q : Nat) : Token × Nat :=
  let ds := (input.drop q).takeWhile isDigitC
  ({ type := .Number, text := ds }, q + ds.length)

/-- `Lexer::identifier`: consume the maximal alphanumeric run starting at `q`
and build a `Function` token if the text is a reserved word, an `Identifier`
token otherwise. -/
def identifierTok (input : List Char) (q : Nat) : Token × Nat :=
  let ds := (input.drop q).takeWhile isAlnumC
  if isReservedWord ds then
    ({ type := .Function, text := ds }, q + ds.length)
  else
    ({ type := .Identifier, text := ds }, q + ds.length)

/-- The classification chain in the body of `Lexer::getNextToken`, applied at
a position already past any whitespace. -/
def classify (input : List Char) (q : Nat) : Except LexError (Token × Nat) :=
  let c := currentChar input q
  if c = Char.ofNat 0 then .ok ({ type := .End, text := [] }, q)
  else if isDigitC c then .ok (numberTok input q)
  else if isAlnumC c then .ok (identifierTok input q)
  else if c = '+' then .ok ({ type := .Plus, text := ['+'] }, q + 1)
  else if c = '-' then .ok ({ type := .Minus, text := ['-'] }, q + 1)
  else if c = '*' then .ok ({ type := .Multiply, text := ['*'] }, q + 1)
  else if c = '/' then .ok ({ type := .Divide, text := ['/'] }, q + 1)
  else if c = '(' then .ok ({ type := .LeftParen, text := ['('] }, q + 1)
  else if c = ')' then .ok ({ type := .RightParen, text := [')'] }, q + 1)
  else if c = '=' then .ok ({ type := .Assignment, text := ['='] }, q + 1)
  else if c = ',' then .ok ({ type := .Comma, text := [','] }, q + 1)
  else .error .invalidCharacter

/-- `Lexer::getNextToken`.  The source's `while` loop only repeats through the
whitespace `continue`; flattened here as one whitespace skip followed by the
classification chain. -/
def getNextToken (input : List Char) (p : Nat) : Except LexError (Token × Nat) :=
  classify input (skipWs input p)

/-- The token-draining loop of `Interpreter::evaluate` (lines 276–280): fetch
tokens and push them until the first `End` token, which is NOT pushed. -/
def drain : Nat → List Char → Nat → Option (Except LexError (List Token))
  | 0, _, _ => none
  | fuel + 1, input, p =>
    match getNextToken input p with
    | .error e => some (.error e)
    | .ok (t, q) =>
      if t.type = TokenType.End then some (.ok [])
      else
        match drain fuel input q with
        | none => none
        | some (.error e) => some (.error e)
        | some (.ok ts) => some (.ok (t :: ts))

/-- The buffered token sequence `Interpreter::evaluate` hands to the Parser.
Every non-`End` token strictly advances the position, so `length + 1` fuel is
enough for the loop to reach `End` on its own. -/
def tokensOf (input : List Char) : Option (Except LexError (List Token)) :=
  drain (input.length + 1) input 0

/-- The AST node classes of the source (`NumberNode`, `BinaryOpNode`,
`VariableNode`, `FunctionCallNode`), as one closed sum. -/
inductive AST
  | NumberNode (value : ℚ)
  | BinaryOpNode (op : Char) (left right : AST)
  | VariableNode (name : List Char)
  | FunctionCallNode (name : List Char) (args : List AST)

/-- Errors thrown by the Parser.  The first three correspond to its
`runtime_error`s; `tokenOutOfBounds` marks the undefined-behaviour read
`tokens[pos]` with `pos ≥ tokens.size()` in `Parser::currentToken`. -/
inductive ParseError
  | mismatchedParentheses
  | expectedLeftParen
  | invalidPrimaryExpression
  | tokenOutOfBounds
deriving DecidableEq

/-- `Parser::currentToken`: `tokens[pos]`, with the out-of-bounds read made
explicit. -/
def currentToken (tokens : List Token) (p : Nat) : Except ParseError Token :=
  match tokens.get? p with
  | some t => .ok t
  | none => .error .tokenOutOfBounds

/-- `text[0]` of a token, used for the operator character; `std::string`
returns the null character when the text is empty. -/
def headChar : List Char → Char
  | [] => Char.ofNat 0
  | c :: _ => c

/-- `std::stod` applied to the lexer's digit-only `Number` text: its integer
value.  (The source rounds that value to the nearest `double`; the embedding
keeps it exact.) -/
def natOfDigits (ds : List Char) : Nat :=
  ds.foldl (fun a c => a * 10 + (c.toNat - 48)) 0

def stodQ (ds : List Char) : ℚ :=
  (natOfDigits ds : ℚ)

mutual

/-- `Parser::expression`: a `term` followed by the `+`/`-` chain loop. -/
def expression (fuel : Nat) (tokens : List Token) (p : Nat) :
    Option (Except ParseError (AST × Nat)) :=
  match fuel with
  | 0 => none
  | fuel + 1 =>
    match term fuel tokens p with
    | none => none
    | some (.error e) => some (.error e)
    | some (.ok (node, q)) => exprLoop fuel tokens node q
termination_by structural fuel


/-- The `while (Plus || Minus)` loop of `Parser::expression`: each iteration
wraps the accumulated node as the left child of a new `BinaryOpNode`. -/
def exprLoop (fuel : Nat) (tokens : List Token) (node : AST) (p : Nat) :
    Option (Except ParseError (AST × Nat)) :=
  match fuel with
  | 0 => none
  | fuel + 1 =>
    match currentToken tokens p with
    | .error e => some (.error e)
    | .ok t =>
      if t.type = TokenType.Plus ∨ t.type = TokenType.Minus then
        match term fuel tokens (p + 1) with
        | none => none
        | some (.error e) => some (.error e)
        | some (.ok (rhs, q)) =>
          exprLoop fuel tokens (AST.BinaryOpNode (headChar t.text) node rhs) q
      else
        some (.ok (node, p))
termination_by structural fuel


/-- `Parser::term`: a `factor` followed by the `*`/`/` chain loop. -/
def term (fuel : Nat) (tokens : List Token) (p : Nat) :
    Option (Except ParseError (AST × Nat)) :=
  match fuel with
  | 0 => none
  | fuel + 1 =>
    match factor fuel tokens p with
    | none => none
    | some (.error e) => some (.error e)
    | some (.ok (node, q)) => termLoop fuel tokens node q
termination_by structural fuel


/-- The `while (Multiply || Divide)` loop of `Parser::term`. -/
def termLoop (fuel : Nat) (tokens : List Token) (node : AST) (p : Nat) :
    Option (Except ParseError (AST × Nat)) :=
  match fuel with
  | 0 => none
  | fuel + 1 =>
    match currentToken tokens p with
    | .error e => some (.error e)
    | .ok t =>
      if t.type = TokenType.Multiply ∨ t.type = TokenType.Divide then
        match factor fuel tokens (p + 1) with
        | none => none
        | some (.error e) => some (.error e)
        | some (.ok (rhs, q)) =>
          termLoop fuel tokens (AST.BinaryOpNode (headChar t.text) node rhs) q
      else
        some (.ok (node, p))
termination_by structural fuel


/-- `Parser::factor`: passes straight through to `primary`. -/
def factor (fuel : Nat) (tokens : List Token) (p : Nat) :
    Option (Except ParseError (AST × Nat)) :=
  match fuel with
  | 0 => none
  | fuel + 1 => primary fuel tokens p
termination_by structural fuel


/-- `Parser::primary`: number, parenthesized expression, identifier, or
function call. -/
def primary (fuel : Nat) (tokens : List Token) (p : Nat) :
    Option (Except ParseError (AST × Nat)) :=
  match fuel with
  | 0 => none
  | fuel + 1 =>
    match currentToken tokens p with
    | .error e => some (.error e)
    | .ok t =>
      if t.type = TokenType.Number then
        some (.ok (AST.NumberNode (stodQ t.text), p + 1))
      else if t.type = TokenType.LeftParen then
        match expression fuel tokens (p + 1) with
        | none => none
        | some (.error e) => some (.error e)
        | some (.ok (node, q)) =>
          match currentToken tokens q with
          | .error e => some (.error e)
          | .ok t2 =>
            if t2.type = TokenType.RightParen then
              some (.ok (node, q + 1))
            else
              some (.error .mismatchedParentheses)
      else if t.type = TokenType.Identifier then
        some (.ok (AST.VariableNode t.text, p + 1))
      else if t.type = TokenType.Function then
        match currentToken tokens (p + 1) with
        | .error e => some (.error e)
        | .ok t2 =>
          if t2.type = TokenType.LeftParen then
            argsLoop fuel tokens t.text [] (p + 2)
          else
            some (.error .expectedLeftParen)
      else
        some (.error .invalidPrimaryExpression)
termination_by structural fuel


/-- The argument-collecting `while (type != RightParen)` loop of the function
branch of `Parser::primary`: parse an expression, consume a comma only when
one is present, repeat until the closing parenthesis. -/
def argsLoop (fuel : Nat) (tokens : List Token) (name : List Char) (args : List AST) (p : Nat) :
    Option (Except ParseError (AST × Nat)) :=
  match fuel with
  | 0 => none
  | fuel + 1 =>
    match currentToken tokens p with
    | .error e => some (.error e)
    | .ok t =>
      if t.type = TokenType.RightParen then
        some (.ok (AST.FunctionCallNode name args, p + 1))
      else
        match expression fuel tokens p with
        | none => none
        | some (.error e) => some (.error e)
        | some (.ok (a, q)) =>
          match currentToken tokens q with
          | .error e => some (.error e)
          | .ok t2 =>
            if t2.type = TokenType.Comma then
              argsLoop fuel tokens name (args ++ [a]) (q + 1)
            else
              argsLoop fuel tokens name (args ++ [a]) q
termination_by structural fuel

end

/-- `Parser::parse`: run `expression` from position 0.  The fuel bound is an
embedding artifact; it dominates the number of parser calls, each of which
either consumes a token or passes to the next precedence level. -/
def parse (tokens : List Token) : Option (Except ParseError (AST × Nat)) :=
  expression (8 * tokens.length + 8) tokens 0

/-- Errors thrown by node evaluation: `NotImplemented` for variables and
function calls, `InvalidOperator` for an operator character outside `+-*/`. -/
inductive EvalError
  | notImplemented
  | invalidBinaryOperator
deriving DecidableEq

/-- The `evaluate` virtual method over the node classes.  `BinaryOpNode`
evaluates left, then right, then dispatches on the operator character;
`VariableNode::evaluate` and `FunctionCallNode::evaluate` throw before
touching any state (the argument nodes are never evaluated). -/
def evaluate : AST → Except EvalError ℚ
  | .NumberNode v => .ok v
  | .BinaryOpNode op l r =>
    match evaluate l with
    | .error e => .error e
    | .ok lv =>
      match evaluate r with
      | .error e => .error e
      | .ok rv =>
        if op = '+' then .ok (lv + rv)
        else if op = '-' then .ok (lv - rv)
        else if op = '*' then .ok (lv * rv)
        else if op = '/' then .ok (lv / rv)
        else .error .invalidBinaryOperator
  | .VariableNode _ => .error .notImplemented
  | .FunctionCallNode _ _ => .error .notImplemented

/-- The error taxonomy as it surfaces from `Interpreter::evaluate` (in the
source all three layers throw `std::runtime_error`; the wrapper records which
layer raised). -/
inductive IError
  | lexError (e : LexError)
  | parseError (e : ParseError)
  | evalError (e : EvalError)
deriving DecidableEq

/-- `Interpreter::evaluate`: drain the lexer into a buffer (without the `End`
token — the drain loop stops at it), parse, evaluate the root, discard the
parser's final cursor position. -/
def interpret (input : List Char) : Option (Except IError ℚ) :=
  match tokensOf input with
  | none => none
  | some (.error e) => some (.error (.lexError e))
  | some (.ok tokens) =>
    match parse tokens with
    | none => none
    | some (.error e) => some (.error (.parseError e))
    | some (.ok (root, _)) =>
      match evaluate root with
      | .error e => some (.error (.evalError e))
      | .ok v => some (.ok v)

/-- Repeated calls to `Lexer::getNextToken`: the token yielded by the
`(k+1)`-st call when starting from position `p`, each call resuming from the
position the previous one returned. -/
def nthTokenFrom (input : List Char) (p : Nat) : Nat → Except LexError (Token × Nat)
  | 0 => getNextToken input p
  | k + 1 =>
    match getNextToken input p with
    | .error e => .error e
    | .ok (_, q) => nthTokenFrom input q k

/-- The operator characters `Parser::expression` and `Parser::term` can place
into a `BinaryOpNode`. -/
def isArithOp (c : Char) : Bool :=
  c == '+' || c == '-' || c == '*' || c == '/'

mutual

/-- Every `BinaryOpNode` in the tree carries an operator in `{+, -, *, /}`. -/
def opsValid : AST → Bool
  | .NumberNode _ => true
  | .VariableNode _ => true
  | .BinaryOpNode op l r => isArithOp op && opsValid l && opsValid r
  | .FunctionCallNode _ args => opsValidList args

def opsValidList : List AST → Bool
  | [] => true
  | a :: as => opsValid a && opsValidList as

end

/-- Lexer-produced tokens carry the matched source text: an operator token's
text is exactly its operator character. -/
def wfToken (t : Token) : Bool :=
  (t.type != TokenType.Plus || t.text == ['+']) &&
  (t.type != TokenType.Minus || t.text == ['-']) &&
  (t.type != TokenType.Multiply || t.text == ['*']) &&
  (t.type != TokenType.Divide || t.text == ['/'])

/-- True unless evaluation failed specifically with the defensive
`InvalidOperator` error. -/
def notInvalidOp : Except EvalError ℚ → Bool
  | .error .invalidBinaryOperator => false
  | _ => true

/-! ## Theorems -/

/-- Claim C1 (refuted): the buffer `Interpreter::evaluate` hands to the
Parser is supposed to end with the `End` token, with every cursor read in
bounds.  In the code the drain loop stops at `End` without pushing it: on
input `"1"` the buffer is the single `Number` token, and the parser's
operator lookahead reads `tokens[1]` on a 1-element vector — out of bounds. -/
theorem C1_no_end_terminator_oob_read :
    tokensOf ("1".toList) = some (.ok [{ type := .Number, text := ['1'] }]) ∧
    interpret ("1".toList) = some (.error (.parseError .tokenOutOfBounds)) :=
  ⟨rfl, rfl⟩

/-- Claim C2 (code bug): `"8-3-2"` and `"16/4/2"` are supposed to evaluate to
`3` and `2`.  As shipped both runs hit the out-of-bounds lookahead past the
`End`-less buffer; given the `End`-terminated sequence the Lexer contract
describes, the parser does fold the chains left-to-right, wrapping the
accumulated node as the left child, and the results are `3` and `2`. -/
theorem C2_left_associativity :
    interpret ("8-3-2".toList) = some (.error (.parseError .tokenOutOfBounds)) ∧
    interpret ("16/4/2".toList) = some (.error (.parseError .tokenOutOfBounds)) ∧
    parse [{ type := .Number, text := ['8'] }, { type := .Minus, text := ['-'] },
        { type := .Number, text := ['3'] }, { type := .Minus, text := ['-'] },
        { type := .Number, text := ['2'] }, { type := .End, text := [] }] =
      some (.ok (AST.BinaryOpNode '-' (AST.BinaryOpNode '-' (AST.NumberNode (stodQ ['8']))
        (AST.NumberNode (stodQ ['3']))) (AST.NumberNode (stodQ ['2'])), 5)) ∧
    evaluate (AST.BinaryOpNode '-' (AST.BinaryOpNode '-' (AST.NumberNode (stodQ ['8']))
        (AST.NumberNode (stodQ ['3']))) (AST.NumberNode (stodQ ['2']))) = .ok 3 ∧
    parse [{ type := .Number, text := ['1', '6'] }, { type := .Divide, text := ['/'] },
        { type := .Number, text := ['4'] }, { type := .Divide, text := ['/'] },
        { type := .Number, text := ['2'] }, { type := .End, text := [] }] =
      some (.ok (AST.BinaryOpNode '/' (AST.BinaryOpNode '/' (AST.NumberNode (stodQ ['1', '6']))
        (AST.NumberNode (stodQ ['4']))) (AST.NumberNode (stodQ ['2'])), 5)) ∧
    evaluate (AST.BinaryOpNode '/' (AST.BinaryOpNode '/' (AST.NumberNode (stodQ ['1', '6']))
        (AST.NumberNode (stodQ ['4']))) (AST.NumberNode (stodQ ['2']))) = .ok 2 := by
  refine ⟨rfl, rfl, rfl, ?_, rfl, ?_⟩
  · simp [evaluate, stodQ, natOfDigits]
    norm_num
  · simp [evaluate, stodQ, natOfDigits]
    norm_num

/-- Claim C3 (code bug): `"2+3*4"` and `"(2+3)*4"` are supposed to evaluate
to `14` and `20`.  As shipped both runs hit the out-of-bounds lookahead past
the `End`-less buffer; given the `End`-terminated sequence, multiplication
does bind tighter than addition and parentheses do override it: the trees are
`2+(3*4)` and `(2+3)*4` with values `14` and `20`. -/
theorem C3_precedence_parentheses :
    interpret ("2+3*4".toList) = some (.error (.parseError .tokenOutOfBounds)) ∧
    interpret ("(2+3)*4".toList) = some (.error (.parseError .tokenOutOfBounds)) ∧
    parse [{ type := .Number, text := ['2'] }, { type := .Plus, text := ['+'] },
        { type := .Number, text := ['3'] }, { type := .Multiply, text := ['*'] },
        { type := .Number, text := ['4'] }, { type := .End, text := [] }] =
      some (.ok (AST.BinaryOpNode '+' (AST.NumberNode (stodQ ['2']))
        (AST.BinaryOpNode '*' (AST.NumberNode (stodQ ['3'])) (AST.NumberNode (stodQ ['4']))), 5)) ∧
    evaluate (AST.BinaryOpNode '+' (AST.NumberNode (stodQ ['2']))
        (AST.BinaryOpNode '*' (AST.NumberNode (stodQ ['3'])) (AST.NumberNode (stodQ ['4'])))) =
      .ok 14 ∧
    parse [{ type := .LeftParen, text := ['('] }, { type := .Number, text := ['2'] },
        { type := .Plus, text := ['+'] }, { type := .Number, text := ['3'] },
        { type := .RightParen, text := [')'] }, { type := .Multiply, text := ['*'] },
        { type := .Number, text := ['4'] }, { type := .End, text := [] }] =
      some (.ok (AST.BinaryOpNode '*' (AST.BinaryOpNode '+' (AST.NumberNode (stodQ ['2']))
        (AST.NumberNode (stodQ ['3']))) (AST.NumberNode (stodQ ['4'])), 7)) ∧
    evaluate (AST.BinaryOpNode '*' (AST.BinaryOpNode '+' (AST.NumberNode (stodQ ['2']))
        (AST.NumberNode (stodQ ['3']))) (AST.NumberNode (stodQ ['4']))) = .ok 20 := by
  refine ⟨rfl, rfl, rfl, ?_, rfl, ?_⟩
  · simp [evaluate, stodQ, natOfDigits]
    norm_num
  · simp [evaluate, stodQ, natOfDigits]
    norm_num

/-- Claim C4 (code bug): `VariableNode::evaluate` and
`FunctionCallNode::evaluate` do always fail with `NotImplemented` — but the
pipeline consequences fail: on `"x"` and on `"pow(2,3)"` the parser's
lookahead reads past the `End`-less token buffer before any evaluation, so
neither input reaches the `NotImplemented` paths. -/
theorem C4_not_implemented_paths :
    (∀ name : List Char, evaluate (AST.VariableNode name) = .error .notImplemented) ∧
    (∀ (name : List Char) (args : List AST),
      evaluate (AST.FunctionCallNode name args) = .error .notImplemented) ∧
    interpret ("x".toList) = some (.error (.parseError .tokenOutOfBounds)) ∧
    interpret ("pow(2,3)".toList) = some (.error (.parseError .tokenOutOfBounds)) :=
  ⟨fun _ => rfl, fun _ _ => rfl, rfl, rfl⟩

/-- Claim C5 (code bug): `"(1+2"` is supposed to fail with
`MismatchedParentheses`.  As shipped, the inner expression's operator
lookahead reads past the 4-token `End`-less buffer before the `')'` check
runs; given the `End`-terminated sequence, the parse does fail with
`MismatchedParentheses`. -/
theorem C5_mismatched_parentheses :
    interpret ("(1+2".toList) = some (.error (.parseError .tokenOutOfBounds)) ∧
    parse [{ type := .LeftParen, text := ['('] }, { type := .Number, text := ['1'] },
        { type := .Plus, text := ['+'] }, { type := .Number, text := ['2'] },
        { type := .End, text := [] }] = some (.error .mismatchedParentheses) :=
  ⟨rfl, rfl⟩

/-- Claim C6 (code bug): `"1/0"` is supposed to evaluate, without error, to
positive infinity.  As shipped the run fails before any division: the parser
reads past the `End`-less token buffer.  Parsing the `End`-terminated
sequence does produce the division node `1 / 0`; its IEEE-754 result is a
floating-point fact outside this exact-rational model. -/
theorem C6_division_by_zero_pipeline :
    interpret ("1/0".toList) = some (.error (.parseError .tokenOutOfBounds)) ∧
    parse [{ type := .Number, text := ['1'] }, { type := .Divide, text := ['/'] },
        { type := .Number, text := ['0'] }, { type := .End, text := [] }] =
      some (.ok (AST.BinaryOpNode '/' (AST.NumberNode (stodQ ['1']))
        (AST.NumberNode (stodQ ['0'])), 3)) :=
  ⟨rfl, rfl⟩

/-- Claim C7 (code bug): a lone integer literal is supposed to evaluate to
its own value.  As shipped even `"5"` fails: after the `Number` token is
consumed the operator lookahead reads `tokens[1]` on a 1-token `End`-less
buffer.  Given the `End`-terminated sequence, the literal does parse to a
`NumberNode` carrying exactly its integer value. -/
theorem C7_number_literal_pipeline :
    interpret ("5".toList) = some (.error (.parseError .tokenOutOfBounds)) ∧
    interpret ("42".toList) = some (.error (.parseError .tokenOutOfBounds)) ∧
    tokensOf ("5".toList) = some (.ok [{ type := .Number, text := ['5'] }]) ∧
    parse [{ type := .Number, text := ['5'] }, { type := .End, text := [] }] =
      some (.ok (AST.NumberNode (stodQ ['5']), 1)) ∧
    evaluate (AST.NumberNode (stodQ ['5'])) = .ok 5 ∧
    parse [{ type := .Number, text := ['4', '2'] }, { type := .End, text := [] }] =
      some (.ok (AST.NumberNode (stodQ ['4', '2']), 1)) ∧
    evaluate (AST.NumberNode (stodQ ['4', '2'])) = .ok 42 := by
  refine ⟨rfl, rfl, rfl, rfl, ?_, rfl, ?_⟩
  · simp [evaluate, stodQ, natOfDigits]
  · simp [evaluate, stodQ, natOfDigits]

/-- Claim C8 (confirmed): a function call's argument list is zero or more
comma-separated expressions.  For any function name, `name()` is accepted by
`Parser::primary` and yields a `FunctionCallNode` with no arguments — no
arity check consults the name.  A comma is consumed exactly when present
after an argument: `pow(2,3)` collects two arguments, `abs(7)` one. -/
theorem C8_function_call_argument_lists :
    (∀ name : List Char, primary 32 [{ type := .Function, text := name },
        { type := .LeftParen, text := ['('] }, { type := .RightParen, text := [')'] }] 0 =
      some (.ok (AST.FunctionCallNode name [], 3))) ∧
    tokensOf ("pow()".toList) = some (.ok
      [{ type := .Function, text := ['p', 'o', 'w'] }, { type := .LeftParen, text := ['('] },
       { type := .RightParen, text := [')'] }]) ∧
    primary 56 [{ type := .Function, text := ['p', 'o', 'w'] },
        { type := .LeftParen, text := ['('] }, { type := .Number, text := ['2'] },
        { type := .Comma, text := [','] }, { type := .Number, text := ['3'] },
        { type := .RightParen, text := [')'] }] 0 =
      some (.ok (AST.FunctionCallNode ['p', 'o', 'w']
        [AST.NumberNode (stodQ ['2']), AST.NumberNode (stodQ ['3'])], 6)) ∧
    primary 40 [{ type := .Function, text := ['a', 'b', 's'] },
        { type := .LeftParen, text := ['('] }, { type := .Number, text := ['7'] },
        { type := .RightParen, text := [')'] }] 0 =
      some (.ok (AST.FunctionCallNode ['a', 'b', 's'] [AST.NumberNode (stodQ ['7'])], 4)) :=
  ⟨fun _ => rfl, rfl, rfl, rfl⟩

/-- Claim C10 (confirmed): calling `Lexer::getNextToken` with the position at
the end of the input returns the `End` token and leaves the position
unchanged, so arbitrarily many further calls each return `End` again. -/
theorem C10_lexer_end_idempotent :
    (∀ input : List Char, getNextToken input input.length =
      .ok ({ type := .End, text := [] }, input.length)) ∧
    (∀ (input : List Char) (k : Nat), nthTokenFrom input input.length k =
      .ok ({ type := .End, text := [] }, input.length)) := by
  have base : ∀ input : List Char, getNextToken input input.length =
      .ok ({ type := .End, text := [] }, input.length) := by
    intro input
    simp [getNextToken, classify, skipWs, currentChar]
  refine ⟨base, fun input k => ?_⟩
  induction k with
  | zero => exact base input
  | succ k ih =>
    rw [nthTokenFrom, base input]
    exact ih

/-! ### Parser operator invariant (claim C9) -/

theorem currentToken_mem : ∀ (tokens : List Token) (p : Nat) (t : Token),
    currentToken tokens p = .ok t → t ∈ tokens
  | [], p, t, h => by simp [currentToken, List.get?] at h
  | x :: xs, 0, t, h => by
    simp only [currentToken, List.get?] at h
    injection h with h1
    rw [← h1]
    exact List.mem_cons_self x xs
  | x :: xs, p + 1, t, h => by
    have hx : currentToken xs p = .ok t := by
      simpa only [currentToken, List.get?] using h
    exact List.mem_cons_of_mem _ (currentToken_mem xs p t hx)

theorem numberTok_wf {input : List Char} {q : Nat} {t : Token} {r : Nat}
    (h : numberTok input q = (t, r)) : wfToken t = true := by
  unfold numberTok at h
  dsimp only at h
  injection h with h1 h2
  subst h1
  rfl

theorem identifierTok_wf {input : List Char} {q : Nat} {t : Token} {r : Nat}
    (h : identifierTok input q = (t, r)) : wfToken t = true := by
  unfold identifierTok at h
  dsimp only at h
  split_ifs at h <;> (injection h with h1 h2; subst h1; rfl)

theorem classify_wf {input : List Char} {q0 : Nat} {t : Token} {q : Nat}
    (h : classify input q0 = .ok (t, q)) : wfToken t = true := by
  unfold classify at h
  dsimp only at h
  generalize currentChar input q0 = c at h
  by_cases hC0 : c = Char.ofNat 0
  · rw [if_pos hC0] at h
    injection h with h1
    injection h1 with ha hb
    subst ha
    rfl
  rw [if_neg hC0] at h
  by_cases hCd : isDigitC c = true
  · rw [if_pos hCd] at h
    injection h with h1
    exact numberTok_wf h1
  rw [if_neg hCd] at h
  by_cases hCa : isAlnumC c = true
  · rw [if_pos hCa] at h
    injection h with h1
    exact identifierTok_wf h1
  rw [if_neg hCa] at h
  by_cases hC0 : c = '+'
  · rw [if_pos hC0] at h
    injection h with h1
    injection h1 with ha hb
    subst ha
    rfl
  rw [if_neg hC0] at h
  by_cases hC1 : c = '-'
  · rw [if_pos hC1] at h
    injection h with h1
    injection h1 with ha hb
    subst ha
    rfl
  rw [if_neg hC1] at h
  by_cases hC2 : c = '*'
  · rw [if_pos hC2] at h
    injection h with h1
    injection h1 with ha hb
    subst ha
    rfl
  rw [if_neg hC2] at h
  by_cases hC3 : c = '/'
  · rw [if_pos hC3] at h
    injection h with h1
    injection h1 with ha hb
    subst ha
    rfl
  rw [if_neg hC3] at h
  by_cases hC4 : c = '('
  · rw [if_pos hC4] at h
    injection h with h1
    injection h1 with ha hb
    subst ha
    rfl
  rw [if_neg hC4] at h
  by_cases hC5 : c = ')'
  · rw [if_pos hC5] at h
    injection h with h1
    injection h1 with ha hb
    subst ha
    rfl
  rw [if_neg hC5] at h
  by_cases hC6 : c = '='
  · rw [if_pos hC6] at h
    injection h with h1
    injection h1 with ha hb
    subst ha
    rfl
  rw [if_neg hC6] at h
  by_cases hC7 : c = ','
  · rw [if_pos hC7] at h
    injection h with h1
    injection h1 with ha hb
    subst ha
    rfl
  rw [if_neg hC7] at h
  exact Except.noConfusion h

theorem getNextToken_wf {input : List Char} {p : Nat} {t : Token} {q : Nat}
    (h : getNextToken input p = .ok (t, q)) : wfToken t = true := by
  unfold getNextToken at h
  exact classify_wf h

theorem drain_wf : ∀ (fuel : Nat) (input : List Char) (p : Nat) (ts : List Token),
    drain fuel input p = some (.ok ts) → ∀ t ∈ ts, wfToken t = true := by
  intro fuel
  induction fuel with
  | zero => intro input p ts h; simp [drain] at h
  | succ fuel ih =>
    intro input p ts h
    simp only [drain] at h
    split at h
    · exact absurd h (by simp)
    · next t0 q hg =>
      split_ifs at h with hEnd
      · obtain rfl : ts = [] := by simpa using h.symm
        intro t ht
        simp at ht
      · split at h
        · exact Option.noConfusion h
        · exact absurd h (by simp)
        · next ts0 hd =>
          obtain rfl : ts = t0 :: ts0 := by simpa using h.symm
          intro t ht
          rcases List.mem_cons.mp ht with rfl | hmem
          · exact getNextToken_wf hg
          · exact ih input q ts0 hd t hmem

theorem expression_zero (tokens : List Token) (p : Nat) : expression 0 tokens p = none := rfl

theorem exprLoop_zero (tokens : List Token) (node : AST) (p : Nat) :
    exprLoop 0 tokens node p = none := rfl

theorem term_zero (tokens : List Token) (p : Nat) : term 0 tokens p = none := rfl

theorem termLoop_zero (tokens : List Token) (node : AST) (p : Nat) :
    termLoop 0 tokens node p = none := rfl

theorem factor_zero (tokens : List Token) (p : Nat) : factor 0 tokens p = none := rfl

theorem primary_zero (tokens : List Token) (p : Nat) : primary 0 tokens p = none := rfl

theorem argsLoop_zero (tokens : List Token) (name : List Char) (args : List AST) (p : Nat) :
    argsLoop 0 tokens name args p = none := rfl

theorem expression_succ (fuel : Nat) (tokens : List Token) (p : Nat) :
    expression (fuel + 1) tokens p =
      match term fuel tokens p with
      | none => none
      | some (.error e) => some (.error e)
      | some (.ok (node, q)) => exprLoop fuel tokens node q := rfl

theorem exprLoop_succ (fuel : Nat) (tokens : List Token) (node : AST) (p : Nat) :
    exprLoop (fuel + 1) tokens node p =
      match currentToken tokens p with
      | .error e => some (.error e)
      | .ok t =>
        if t.type = TokenType.Plus ∨ t.type = TokenType.Minus then
          match term fuel tokens (p + 1) with
          | none => none
          | some (.error e) => some (.error e)
          | some (.ok (rhs, q)) =>
            exprLoop fuel tokens (AST.BinaryOpNode (headChar t.text) node rhs) q
        else
          some (.ok (node, p)) := rfl

theorem term_succ (fuel : Nat) (tokens : List Token) (p : Nat) :
    term (fuel + 1) tokens p =
      match factor fuel tokens p with
      | none => none
      | some (.error e) => some (.error e)
      | some (.ok (node, q)) => termLoop fuel tokens node q := rfl

theorem termLoop_succ (fuel : Nat) (tokens : List Token) (node : AST) (p : Nat) :
    termLoop (fuel + 1) tokens node p =
      match currentToken tokens p with
      | .error e => some (.error e)
      | .ok t =>
        if t.type = TokenType.Multiply ∨ t.type = TokenType.Divide then
          match factor fuel tokens (p + 1) with
          | none => none
          | some (.error e) => some (.error e)
          | some (.ok (rhs, q)) =>
            termLoop fuel tokens (AST.BinaryOpNode (headChar t.text) node rhs) q
        else
          some (.ok (node, p)) := rfl

theorem factor_succ (fuel : Nat) (tokens : List Token) (p : Nat) :
    factor (fuel + 1) tokens p = primary fuel tokens p := rfl

theorem primary_succ (fuel : Nat) (tokens : List Token) (p : Nat) :
    primary (fuel + 1) tokens p =
      match currentToken tokens p with
      | .error e => some (.error e)
      | .ok t =>
        if t.type = TokenType.Number then
          some (.ok (AST.NumberNode (stodQ t.text), p + 1))
        else if t.type = TokenType.LeftParen then
          match expression fuel tokens (p + 1) with
          | none => none
          | some (.error e) => some (.error e)
          | some (.ok (node, q)) =>
            match currentToken tokens q with
            | .error e => some (.error e)
            | .ok t2 =>
              if t2.type = TokenType.RightParen then
                some (.ok (node, q + 1))
              else
                some (.error .mismatchedParentheses)
        else if t.type = TokenType.Identifier then
          some (.ok (AST.VariableNode t.text, p + 1))
        else if t.type = TokenType.Function then
          match currentToken tokens (p + 1) with
          | .error e => some (.error e)
          | .ok t2 =>
            if t2.type = TokenType.LeftParen then
              argsLoop fuel tokens t.text [] (p + 2)
            else
              some (.error .expectedLeftParen)
        else
          some (.error .invalidPrimaryExpression) := rfl

theorem argsLoop_succ (fuel : Nat) (tokens : List Token) (name : List Char)
    (args : List AST) (p : Nat) :
    argsLoop (fuel + 1) tokens name args p =
      match currentToken tokens p with
      | .error e => some (.error e)
      | .ok t =>
        if t.type = TokenType.RightParen then
          some (.ok (AST.FunctionCallNode name args, p + 1))
        else
          match expression fuel tokens p with
          | none => none
          | some (.error e) => some (.error e)
          | some (.ok (a, q)) =>
            match currentToken tokens q with
            | .error e => some (.error e)
            | .ok t2 =>
              if t2.type = TokenType.Comma then
                argsLoop fuel tokens name (args ++ [a]) (q + 1)
              else
                argsLoop fuel tokens name (args ++ [a]) q := rfl

theorem isArith_of_wf_pm {t : Token} (hwt : wfToken t = true)
    (hop : t.type = TokenType.Plus ∨ t.type = TokenType.Minus) :
    isArithOp (headChar t.text) = true := by
  simp only [wfToken, Bool.and_eq_true, Bool.or_eq_true, bne_iff_ne, ne_eq,
    beq_iff_eq] at hwt
  obtain ⟨⟨⟨h1, h2⟩, h3⟩, h4⟩ := hwt
  rcases hop with h | h
  · rcases h1 with h1 | h1
    · exact absurd h h1
    · rw [h1]; rfl
  · rcases h2 with h2 | h2
    · exact absurd h h2
    · rw [h2]; rfl

theorem isArith_of_wf_md {t : Token} (hwt : wfToken t = true)
    (hop : t.type = TokenType.Multiply ∨ t.type = TokenType.Divide) :
    isArithOp (headChar t.text) = true := by
  simp only [wfToken, Bool.and_eq_true, Bool.or_eq_true, bne_iff_ne, ne_eq,
    beq_iff_eq] at hwt
  obtain ⟨⟨⟨h1, h2⟩, h3⟩, h4⟩ := hwt
  rcases hop with h | h
  · rcases h3 with h3 | h3
    · exact absurd h h3
    · rw [h3]; rfl
  · rcases h4 with h4 | h4
    · exact absurd h h4
    · rw [h4]; rfl

theorem opsValidList_append {args : List AST} {a : AST}
    (h1 : opsValidList args = true) (h2 : opsValid a = true) :
    opsValidList (args ++ [a]) = true := by
  induction args with
  | nil => simp [opsValidList, h2]
  | cons x xs ih =>
    simp only [opsValidList, Bool.and_eq_true, List.cons_append] at h1 ⊢
    exact ⟨h1.1, ih h1.2⟩

theorem eval_no_invalid_op : ∀ t : AST, opsValid t = true →
    notInvalidOp (evaluate t) = true
  | .NumberNode _, _ => rfl
  | .VariableNode _, _ => rfl
  | .FunctionCallNode _ _, _ => rfl
  | .BinaryOpNode op l r, h => by
    simp only [opsValid, Bool.and_eq_true] at h
    obtain ⟨⟨hop, hl⟩, hr⟩ := h
    have Hl := eval_no_invalid_op l hl
    have Hr := eval_no_invalid_op r hr
    simp only [evaluate]
    cases hel : evaluate l with
    | error e =>
      rw [hel] at Hl
      exact Hl
    | ok lv =>
      cases her : evaluate r with
      | error e =>
        rw [her] at Hr
        exact Hr
      | ok rv =>
        simp only [isArithOp, Bool.or_eq_true, beq_iff_eq] at hop
        rcases hop with ((h | h) | h) | h <;> subst h <;> rfl

theorem parserOps (fuel : Nat) (tokens : List Token)
    (hwf : ∀ t ∈ tokens, wfToken t = true) :
    (∀ p a q, expression fuel tokens p = some (.ok (a, q)) → opsValid a = true) ∧
    (∀ node p a q, opsValid node = true →
      exprLoop fuel tokens node p = some (.ok (a, q)) → opsValid a = true) ∧
    (∀ p a q, term fuel tokens p = some (.ok (a, q)) → opsValid a = true) ∧
    (∀ node p a q, opsValid node = true →
      termLoop fuel tokens node p = some (.ok (a, q)) → opsValid a = true) ∧
    (∀ p a q, factor fuel tokens p = some (.ok (a, q)) → opsValid a = true) ∧
    (∀ p a q, primary fuel tokens p = some (.ok (a, q)) → opsValid a = true) ∧
    (∀ name args p a q, opsValidList args = true →
      argsLoop fuel tokens name args p = some (.ok (a, q)) → opsValid a = true) := by
  induction fuel with
  | zero =>
    refine ⟨fun p a q h => ?_, fun node p a q hn h => ?_, fun p a q h => ?_,
      fun node p a q hn h => ?_, fun p a q h => ?_, fun p a q h => ?_,
      fun name args p a q hn h => ?_⟩
    · rw [expression_zero] at h; exact Option.noConfusion h
    · rw [exprLoop_zero] at h; exact Option.noConfusion h
    · rw [term_zero] at h; exact Option.noConfusion h
    · rw [termLoop_zero] at h; exact Option.noConfusion h
    · rw [factor_zero] at h; exact Option.noConfusion h
    · rw [primary_zero] at h; exact Option.noConfusion h
    · rw [argsLoop_zero] at h; exact Option.noConfusion h
  | succ fuel ih =>
    obtain ⟨ihe, ihel, iht, ihtl, ihf, ihp, iha⟩ := ih
    refine ⟨?_, ?_, ?_, ?_, ?_, ?_, ?_⟩
    · intro p a q h
      rw [expression_succ] at h
      split at h
      · exact Option.noConfusion h
      · exact absurd h (by simp)
      · next node q1 heq => exact ihel node q1 a q (iht p node q1 heq) h
    · intro node p a q hnode h
      rw [exprLoop_succ] at h
      split at h
      · exact absurd h (by simp)
      · next t hct =>
        split_ifs at h with hop
        · split at h
          · exact Option.noConfusion h
          · exact absurd h (by simp)
          · next rhs q1 heq =>
            refine ihel _ q1 a q ?_ h
            have hwt := hwf t (currentToken_mem tokens p t hct)
            simp only [opsValid, Bool.and_eq_true]
            exact ⟨⟨isArith_of_wf_pm hwt hop, hnode⟩, iht (p + 1) rhs q1 heq⟩
        · simp only [Option.some.injEq, Except.ok.injEq, Prod.mk.injEq] at h
          obtain ⟨rfl, rfl⟩ := h
          exact hnode
    · intro p a q h
      rw [term_succ] at h
      split at h
      · exact Option.noConfusion h
      · exact absurd h (by simp)
      · next node q1 heq => exact ihtl node q1 a q (ihf p node q1 heq) h
    · intro node p a q hnode h
      rw [termLoop_succ] at h
      split at h
      · exact absurd h (by simp)
      · next t hct =>
        split_ifs at h with hop
        · split at h
          · exact Option.noConfusion h
          · exact absurd h (by simp)
          · next rhs q1 heq =>
            refine ihtl _ q1 a q ?_ h
            have hwt := hwf t (currentToken_mem tokens p t hct)
            simp only [opsValid, Bool.and_eq_true]
            exact ⟨⟨isArith_of_wf_md hwt hop, hnode⟩, ihf (p + 1) rhs q1 heq⟩
        · simp only [Option.some.injEq, Except.ok.injEq, Prod.mk.injEq] at h
          obtain ⟨rfl, rfl⟩ := h
          exact hnode
    · intro p a q h
      rw [factor_succ] at h
      exact ihp p a q h
    · intro p a q h
      rw [primary_succ] at h
      split at h
      · exact absurd h (by simp)
      · next t hct =>
        split_ifs at h with hnum hlp hid hfn
        · simp only [Option.some.injEq, Except.ok.injEq, Prod.mk.injEq] at h
          obtain ⟨rfl, rfl⟩ := h
          rfl
        · split at h
          · exact Option.noConfusion h
          · exact absurd h (by simp)
          · next node q1 heq =>
            split at h
            · exact absurd h (by simp)
            · next t2 hct2 =>
              split_ifs at h with hrp
              · simp only [Option.some.injEq, Except.ok.injEq, Prod.mk.injEq] at h
                obtain ⟨rfl, rfl⟩ := h
                exact ihe (p + 1) _ q1 heq
              · exact absurd h (by simp)
        · simp only [Option.some.injEq, Except.ok.injEq, Prod.mk.injEq] at h
          obtain ⟨rfl, rfl⟩ := h
          rfl
        · split at h
          · exact absurd h (by simp)
          · next t2 hct2 =>
            split_ifs at h with hlp2
            · exact iha t.text [] (p + 2) a q rfl h
            · exact absurd h (by simp)
        · exact absurd h (by simp)
    · intro name args p a q hargs h
      rw [argsLoop_succ] at h
      split at h
      · exact absurd h (by simp)
      · next t hct =>
        split_ifs at h with hrp
        · simp only [Option.some.injEq, Except.ok.injEq, Prod.mk.injEq] at h
          obtain ⟨rfl, rfl⟩ := h
          simpa [opsValid] using hargs
        · split at h
          · exact Option.noConfusion h
          · exact absurd h (by simp)
          · next a1 q1 heq =>
            split at h
            · exact absurd h (by simp)
            · next t2 hct2 =>
              split_ifs at h with hcm
              · exact iha name (args ++ [a1]) (q1 + 1) a q
                  (opsValidList_append hargs (ihe p a1 q1 heq)) h
              · exact iha name (args ++ [a1]) q1 a q
                  (opsValidList_append hargs (ihe p a1 q1 heq)) h

/-- Claim C9 (confirmed): every AST the Parser returns from a lexer-produced
token sequence carries only operators in `{+, -, *, /}` in its
`BinaryOpNode`s, so evaluating such a tree never produces the defensive
`InvalidOperator` error. -/
theorem C9_parser_only_valid_ops (input : List Char) (ts : List Token)
    (a : AST) (q : Nat)
    (hlex : tokensOf input = some (.ok ts))
    (hparse : parse ts = some (.ok (a, q))) :
    opsValid a = true ∧ notInvalidOp (evaluate a) = true := by
  have hwf : ∀ t ∈ ts, wfToken t = true := drain_wf (input.length + 1) input 0 ts hlex
  have hops := (parserOps (8 * ts.length + 8) ts hwf).1 0 a q hparse
  exact ⟨hops, eval_no_invalid_op a hops⟩

/-- Witness for C9: the pipeline input `"8-3)"` lexes to a four-token buffer
whose parse succeeds (the stray `)` acts as the terminator the missing `End`
token would normally provide), and the resulting tree satisfies the
conclusion. -/
theorem C9_ops_witness :
    opsValid (AST.BinaryOpNode '-' (AST.NumberNode (stodQ ['8']))
      (AST.NumberNode (stodQ ['3']))) = true ∧
    notInvalidOp (evaluate (AST.BinaryOpNode '-' (AST.NumberNode (stodQ ['8']))
      (AST.NumberNode (stodQ ['3'])))) = true :=
  C9_parser_only_valid_ops ("8-3)".toList)
    [{ type := .Number, text := ['8'] }, { type := .Minus, text := ['-'] },
     { type := .Number, text := ['3'] }, { type := .RightParen, text := [')'] }]
    (AST.BinaryOpNode '-' (AST.NumberNode (stodQ ['8'])) (AST.NumberNode (stodQ ['3'])))
    3 rfl rfl
